import Mathlib

/-!
Verification development for the MASP note-encryption core
(`masp_primitives/src/note_encryption.rs` and `masp_primitives/src/sapling.rs`).

The elliptic-curve, hash, AEAD, consensus-parameter, amount, memo and
asset-type collaborators live outside the two source files; they are modelled
from the spec (each such definition carries a doc comment starting with
`Modelled from the spec:`).  Everything translated directly from the Rust
sources keeps the source's names.

The jubjub group (order `8·r`, cofactor `8`, prime-order subgroup of order
`r`) is modelled as the cyclic group `ZMod (8 * r)` with scalars `ZMod r`,
and byte strings as `List ℕ` of values `< 256`.
-/

set_option maxRecDepth 100000

namespace Masp

/-- Little-endian encoding of a natural number into exactly `k` bytes. -/
def natToLEBytes : ℕ → ℕ → List ℕ
  | 0, _ => []
  | k + 1, v => v % 256 :: natToLEBytes k (v / 256)

/-- Little-endian decoding of a byte list into a natural number. -/
def leBytesToNat : List ℕ → ℕ
  | [] => 0
  | b :: bs => b + 256 * leBytesToNat bs

/-- Every entry of the list is a byte value. -/
def isBytes (bs : List ℕ) : Prop := ∀ b ∈ bs, b < 256

instance (bs : List ℕ) : Decidable (isBytes bs) := List.decidableBAll _ bs

/-- Modelled from the spec: the elliptic-curve collaborator (the jubjub
crate).  The full curve group has order `8·r` with cofactor `8` and a
prime-order subgroup of order `r`; since `gcd 8 r = 1` for the real curve the
group is cyclic, so it is modelled as `ZMod (8 * r)`.  `ExtendedPoint`
corresponds to `Point r`. -/
abbrev Point (r : ℕ) : Type := ZMod (8 * r)

/-- Modelled from the spec: the scalar field `jubjub::Fr` of the prime-order
subgroup. -/
abbrev Scalar (r : ℕ) : Type := ZMod r

/-- Modelled from the spec: `jubjub::SubgroupPoint` — a curve point lying in
the prime-order subgroup (annihilated by `r`). -/
abbrev SubgroupPoint (r : ℕ) : Type := {p : Point r // r • p = 0}

/-- Modelled from the spec: scalar multiplication of a full-group point by a
scalar of the prime-order field (the scalar acts through its representative). -/
def scalarMulP {r : ℕ} (s : Scalar r) (p : Point r) : Point r := s.val • p

/-- Modelled from the spec: `ExtendedPoint::clear_cofactor`, implemented as
`mul_by_cofactor` (multiplication by `8`); the result always lies in the
prime-order subgroup. -/
def clearCofactor {r : ℕ} (p : Point r) : SubgroupPoint r :=
  ⟨(8 : ℕ) • p, by
    rw [smul_smul]
    have h8 : (((r * 8 : ℕ)) : ZMod (8 * r)) = 0 := by
      have hc : (r * 8 : ℕ) = 8 * r := Nat.mul_comm r 8
      rw [hc, ZMod.natCast_self]
    rw [nsmul_eq_mul, h8, zero_mul]⟩

/-- Modelled from the spec: scalar multiplication inside the prime-order
subgroup (`SubgroupPoint * Fr`). -/
def scalarMulSub {r : ℕ} (s : Scalar r) (g : SubgroupPoint r) : SubgroupPoint r :=
  ⟨s.val • g.val, by rw [smul_comm, g.property, smul_zero]⟩

/-- Modelled from the spec: the canonical 32-byte encoding of a curve point
(`to_bytes`). -/
def pointToBytes {r : ℕ} (p : Point r) : List ℕ := natToLEBytes 32 p.val

/-- Modelled from the spec: `ExtendedPoint::from_bytes` — only canonical
32-byte encodings decode, to a full-group point. -/
def extendedFromBytes (r : ℕ) (bs : List ℕ) : Option (Point r) :=
  if bs.length = 32 ∧ isBytes bs ∧ leBytesToNat bs < 8 * r then
    some ((leBytesToNat bs : ℕ) : Point r)
  else none

/-- Modelled from the spec: `SubgroupPoint::from_bytes` — a canonical
encoding that additionally lies in the prime-order subgroup. -/
def subgroupFromBytes (r : ℕ) (bs : List ℕ) : Option (SubgroupPoint r) :=
  match extendedFromBytes r bs with
  | none => none
  | some p => if h : r • p = 0 then some ⟨p, h⟩ else none

/-- Modelled from the spec: the canonical 32-byte encoding of a scalar
(`Fr::to_repr`). -/
def scalarToBytes {r : ℕ} (s : Scalar r) : List ℕ := natToLEBytes 32 s.val

/-- Modelled from the spec: `Fr::from_repr` — only canonical (in-range)
32-byte encodings decode to a scalar. -/
def scalarFromBytes (r : ℕ) (bs : List ℕ) : Option (Scalar r) :=
  if bs.length = 32 ∧ isBytes bs ∧ leBytesToNat bs < r then
    some ((leBytesToNat bs : ℕ) : Scalar r)
  else none

/-- `sapling_ka_agree` (note_encryption.rs): key agreement computes
`[8 esk] pk_d`, i.e. scalar multiplication followed by cofactor clearing. -/
def sapling_ka_agree {r : ℕ} (esk : Scalar r) (pk_d : Point r) : SubgroupPoint r :=
  clearCofactor (scalarMulP esk pk_d)

/-- `Domain::ka_agree_enc` (note_encryption.rs): the encryption side agrees
using the ephemeral secret and the recipient's `pk_d`. -/
def ka_agree_enc {r : ℕ} (esk : Scalar r) (pk_d : SubgroupPoint r) : SubgroupPoint r :=
  sapling_ka_agree esk pk_d.val

/-- `Domain::ka_agree_dec` (note_encryption.rs): the decryption side agrees
using the incoming viewing key and the ephemeral public key. -/
def ka_agree_dec {r : ℕ} (ivk : Scalar r) (epk : Point r) : SubgroupPoint r :=
  sapling_ka_agree ivk epk

/-- Modelled from the spec: the output of the blake2b hash collaborator,
kept as the (personalization, data) pair of an opaque deterministic hash. -/
structure HashOut where
  personal : List ℕ
  data : List ℕ
deriving DecidableEq

/-- `KDF_SAPLING_PERSONALIZATION` (note_encryption.rs): the bytes of
the string used to domain-separate the note-encryption KDF. -/
def KDF_SAPLING_PERSONALIZATION : List ℕ :=
  [77, 65, 83, 80, 95, 95, 83, 97, 112, 108, 105, 110, 103, 75, 68, 70]

/-- `PRF_OCK_PERSONALIZATION` (note_encryption.rs): the bytes of the string
used to domain-separate the outgoing-cipher-key PRF. -/
def PRF_OCK_PERSONALIZATION : List ℕ :=
  [77, 65, 83, 80, 95, 95, 68, 101, 114, 105, 118, 101, 95, 111, 99, 107]

/-- `kdf_sapling` (note_encryption.rs): blake2b over the shared secret's
canonical bytes followed by the raw ephemeral-key wire bytes. -/
def kdf_sapling {r : ℕ} (dhsecret : SubgroupPoint r) (ephemeral_key : List ℕ) : HashOut :=
  ⟨KDF_SAPLING_PERSONALIZATION, pointToBytes dhsecret.val ++ ephemeral_key⟩

/-- `prf_ock` (note_encryption.rs): blake2b over
`ovk ‖ cv bytes ‖ cmu bytes ‖ ephemeral-key bytes`. -/
def prf_ock {r : ℕ} (ovk : List ℕ) (cv : Point r) (cmu_bytes : List ℕ)
    (ephemeral_key : List ℕ) : HashOut :=
  ⟨PRF_OCK_PERSONALIZATION, ovk ++ pointToBytes cv ++ cmu_bytes ++ ephemeral_key⟩

/-- Modelled from the spec: an AEAD ciphertext of the one-time-key AEAD
collaborator (ChaCha20Poly1305 with the fixed all-zero nonce), idealized as
the key/plaintext pair it authenticates. -/
structure Ciphertext where
  key : HashOut
  ptx : List ℕ
deriving DecidableEq

/-- Modelled from the spec: AEAD encryption under a one-time key. -/
def aeadEncrypt (k : HashOut) (pt : List ℕ) : Ciphertext := ⟨k, pt⟩

/-- Modelled from the spec: AEAD decryption; authentication fails (no
result) unless the key matches the one the ciphertext was produced under. -/
def aeadDecrypt (k : HashOut) (ct : Ciphertext) : Option (List ℕ) :=
  if ct.key = k then some ct.ptx else none

/-- Modelled from the spec: the network-upgrade configuration collaborator —
the (optional) Canopy activation height together with the
`ZIP212_GRACE_PERIOD` block count. -/
structure Params where
  canopyActivation : Option ℕ
  zip212GracePeriod : ℕ

/-- Modelled from the spec: `Parameters::is_nu_active(Canopy, height)` — the
upgrade is active exactly when it has an activation height `≤ height`. -/
def Params.is_nu_active (P : Params) (height : ℕ) : Bool :=
  match P.canopyActivation with
  | none => false
  | some h0 => decide (h0 ≤ height)

/-- `plaintext_version_is_valid` (note_encryption.rs): the height-dependent
gate on the note plaintext's leading byte. The `none` branch of the match is
unreachable (the source unwraps there): `is_nu_active` is false when no
activation height is configured. -/
def plaintext_version_is_valid (P : Params) (height leadbyte : ℕ) : Bool :=
  if P.is_nu_active height then
    match P.canopyActivation with
    | none => false
    | some h0 =>
      if height < h0 + P.zip212GracePeriod ∧ ¬leadbyte = 1 ∧ ¬leadbyte = 2 then
        false
      else if h0 + P.zip212GracePeriod ≤ height ∧ ¬leadbyte = 2 then
        false
      else
        true
  else
    decide (leadbyte = 1)

/-- `Rseed` (sapling.rs / primitives): pre-upgrade commitment randomness (a
scalar) or post-upgrade opaque randomness bytes. -/
inductive Rseed (r : ℕ)
  | BeforeZip212 (rcm : Scalar r)
  | AfterZip212 (bytes : List ℕ)
deriving DecidableEq

/-- Modelled from the spec: the external collaborators consulted by the
codec — the diversifier group-hash (`Diversifier::g_d`, which maps 11 bytes
to either no point or a subgroup point) and the asset-type registry's
identifier validity test (`AssetType::from_identifier` succeeds exactly on
valid identifiers, returning the asset type with that identifier). -/
structure Collab (r : ℕ) where
  gd : List ℕ → Option (SubgroupPoint r)
  assetValid : List ℕ → Bool

/-- Modelled from the spec: `AssetType::from_identifier` — resolves a 32-byte
identifier via the asset-type collaborator; the asset type is represented by
its identifier bytes. -/
def assetType_from_identifier {r : ℕ} (C : Collab r) (idb : List ℕ) : Option (List ℕ) :=
  if C.assetValid idb then some idb else none

/-- Modelled from the spec: the maximum-money bound of the amount
collaborator (only boundedness matters to this layer). -/
def MAX_MONEY : ℕ := 2 ^ 63 - 1

/-- Modelled from the spec: `Amount::from_u64_le_bytes` — parse 8
little-endian bytes as a bounded amount. -/
def amount_from_u64_le_bytes (bs : List ℕ) : Option ℕ :=
  if leBytesToNat bs ≤ MAX_MONEY then some (leBytesToNat bs) else none

/-- `Note` (sapling.rs): asset type identifier, value, rseed, diversified
base `g_d` and diversified transmission key `pk_d`. -/
structure Note (r : ℕ) where
  asset_type : List ℕ
  value : ℕ
  rseed : Rseed r
  g_d : SubgroupPoint r
  pk_d : SubgroupPoint r
deriving DecidableEq

/-- `PaymentAddress` (sapling.rs): diversifier together with `pk_d`. -/
structure PaymentAddress (r : ℕ) where
  pk_d : SubgroupPoint r
  diversifier : List ℕ
deriving DecidableEq

/-- `PaymentAddress::from_parts` (sapling.rs): rejects the identity `pk_d`. -/
def PaymentAddress.from_parts {r : ℕ} (d : List ℕ) (pk_d : SubgroupPoint r) :
    Option (PaymentAddress r) :=
  if pk_d.val = 0 then none else some ⟨pk_d, d⟩

/-- `PaymentAddress::create_note` (sapling.rs): re-derives `g_d` from the
diversifier and assembles the note. -/
def PaymentAddress.create_note {r : ℕ} (C : Collab r) (pa : PaymentAddress r)
    (asset_type : List ℕ) (value : ℕ) (rseed : Rseed r) : Option (Note r) :=
  (C.gd pa.diversifier).map fun g => ⟨asset_type, value, rseed, g, pa.pk_d⟩

/-- The leading version byte written for each rseed variant
(`note_plaintext_bytes`, note_encryption.rs). -/
def leadByte {r : ℕ} : Rseed r → ℕ
  | .BeforeZip212 _ => 1
  | .AfterZip212 _ => 2

/-- The 32 rseed-or-randomness bytes written into the plaintext
(`note_plaintext_bytes`, note_encryption.rs). -/
def rseedBytes {r : ℕ} : Rseed r → List ℕ
  | .BeforeZip212 rcm => scalarToBytes rcm
  | .AfterZip212 bs => bs

/-- `COMPACT_NOTE_SIZE`: the memo-less note plaintext size, forced by the
source's slices `plaintext[52..COMPACT_NOTE_SIZE]` being 32 bytes:
`1 + 11 + 8 + 32 + 32 = 84`. -/
def COMPACT_NOTE_SIZE : ℕ := 84

/-- `OUT_PLAINTEXT_SIZE`: `32 (pk_d) + 32 (esk) = 64` bytes, forced by the
source's slices in `outgoing_plaintext_bytes`. -/
def OUT_PLAINTEXT_SIZE : ℕ := 64

/-- Modelled from the spec: `PRF^expand`-style derivation of the ephemeral
secret from post-upgrade rseed bytes (note.rs is not under src/); an opaque
deterministic hash into the scalar field. -/
def eskFromRseed (r : ℕ) (bytes : List ℕ) : Scalar r :=
  ((leBytesToNat bytes : ℕ) : Scalar r)

/-- Modelled from the spec: `Note::derive_esk` — the ephemeral secret is
derivable exactly for post-upgrade notes. -/
def Note.derive_esk {r : ℕ} (n : Note r) : Option (Scalar r) :=
  match n.rseed with
  | .BeforeZip212 _ => none
  | .AfterZip212 bs => some (eskFromRseed r bs)

/-- Modelled from the spec: `Note::generate_or_derive_esk_internal` — derive
the ephemeral secret when possible, otherwise take the freshly sampled one. -/
def Note.generate_or_derive_esk {r : ℕ} (n : Note r) (rand : Scalar r) : Scalar r :=
  (n.derive_esk).getD rand

/-- Modelled from the spec: `Note::cmu` — the note commitment recomputed
from the note's contents (the commitment collaborator is out of scope), as
its 32-byte-field wire bytes; an opaque deterministic function of the note. -/
def Note.cmu {r : ℕ} (n : Note r) : List ℕ :=
  pointToBytes n.g_d.val ++ pointToBytes n.pk_d.val ++ natToLEBytes 8 n.value ++
    n.asset_type ++ rseedBytes n.rseed

/-- `Domain::note_plaintext_bytes` (note_encryption.rs): the fixed layout
`[lead byte][11 diversifier][8 value LE][32 asset id][32 rseed][memo]`. -/
def note_plaintext_bytes {r : ℕ} (n : Note r) (recipient : PaymentAddress r)
    (memo : List ℕ) : List ℕ :=
  leadByte n.rseed ::
    (recipient.diversifier ++ natToLEBytes 8 n.value ++ n.asset_type ++
      rseedBytes n.rseed ++ memo)

/-- `Domain::outgoing_plaintext_bytes` (note_encryption.rs):
`[32 pk_d][32 esk]`. -/
def outgoing_plaintext_bytes {r : ℕ} (n : Note r) (esk : Scalar r) : List ℕ :=
  pointToBytes n.pk_d.val ++ scalarToBytes esk

/-- `epk_bytes` (note_encryption.rs): the wire bytes of the ephemeral public
key. -/
def epk_bytes {r : ℕ} (epk : Point r) : List ℕ := pointToBytes epk

/-- `Domain::epk` (note_encryption.rs): parse ephemeral-key wire bytes,
unconditionally rejecting non-canonical encodings. -/
def epk (r : ℕ) (ephemeral_key : List ℕ) : Option (Point r) :=
  extendedFromBytes r ephemeral_key

/-- `Domain::ka_derive_public` (note_encryption.rs): `epk = g_d · esk`,
returned as a full-group point. -/
def ka_derive_public {r : ℕ} (n : Note r) (esk : Scalar r) : Point r :=
  (scalarMulSub esk n.g_d).val

/-- `Domain::extract_pk_d` (note_encryption.rs): the first 32 bytes of the
outgoing plaintext parsed as a subgroup point. -/
def extract_pk_d (r : ℕ) (op : List ℕ) : Option (SubgroupPoint r) :=
  subgroupFromBytes r (op.take 32)

/-- `Domain::extract_esk` (note_encryption.rs): bytes 32..64 of the outgoing
plaintext parsed as a scalar. -/
def extract_esk (r : ℕ) (op : List ℕ) : Option (Scalar r) :=
  scalarFromBytes r ((op.drop 32).take 32)

/-- `Domain::extract_memo` (note_encryption.rs): the plaintext past the
compact region. -/
def extract_memo (pt : List ℕ) : List ℕ := pt.drop COMPACT_NOTE_SIZE

/-- `sapling_parse_note_plaintext_without_memo` (note_encryption.rs): decode
and validate a note plaintext, with the `pk_d` validation strategy passed as
a closure. -/
def sapling_parse_note_plaintext_without_memo {r : ℕ} (P : Params) (height : ℕ)
    (C : Collab r) (plaintext : List ℕ)
    (get_validated_pk_d : List ℕ → Option (SubgroupPoint r)) :
    Option (Note r × PaymentAddress r) :=
  if plaintext_version_is_valid P height (plaintext.headD 0) then
    (amount_from_u64_le_bytes ((plaintext.drop 12).take 8)).bind fun value =>
    (assetType_from_identifier C ((plaintext.drop 20).take 32)).bind fun asset_type =>
    (if plaintext.headD 0 = 1 then
      (scalarFromBytes r ((plaintext.drop 52).take 32)).map Rseed.BeforeZip212
    else
      some (Rseed.AfterZip212 ((plaintext.drop 52).take 32))).bind fun rseed =>
    (get_validated_pk_d ((plaintext.drop 1).take 11)).bind fun pk_d =>
    (PaymentAddress.from_parts ((plaintext.drop 1).take 11) pk_d).bind fun pa =>
    (pa.create_note C asset_type value rseed).map fun note => (note, pa)
  else
    none

/-- The same decoder written in the spec's stated validation order:
(a) version gate, (b) diversifier maps to a validated point, (c) bounded
value, (d) asset-type resolution, (e) version-dependent rseed. -/
def parse_note_plaintext_spec_order {r : ℕ} (P : Params) (height : ℕ)
    (C : Collab r) (plaintext : List ℕ)
    (get_validated_pk_d : List ℕ → Option (SubgroupPoint r)) :
    Option (Note r × PaymentAddress r) :=
  if plaintext_version_is_valid P height (plaintext.headD 0) then
    (get_validated_pk_d ((plaintext.drop 1).take 11)).bind fun pk_d =>
    (amount_from_u64_le_bytes ((plaintext.drop 12).take 8)).bind fun value =>
    (assetType_from_identifier C ((plaintext.drop 20).take 32)).bind fun asset_type =>
    (if plaintext.headD 0 = 1 then
      (scalarFromBytes r ((plaintext.drop 52).take 32)).map Rseed.BeforeZip212
    else
      some (Rseed.AfterZip212 ((plaintext.drop 52).take 32))).bind fun rseed =>
    (PaymentAddress.from_parts ((plaintext.drop 1).take 11) pk_d).bind fun pa =>
    (pa.create_note C asset_type value rseed).map fun note => (note, pa)
  else
    none

/-- `Domain::parse_note_plaintext_without_memo_ivk` (note_encryption.rs):
the recipient validates `pk_d` by recomputing `g_d · ivk`. -/
def parse_note_plaintext_without_memo_ivk {r : ℕ} (P : Params) (height : ℕ)
    (C : Collab r) (ivk : Scalar r) (plaintext : List ℕ) :
    Option (Note r × PaymentAddress r) :=
  sapling_parse_note_plaintext_without_memo P height C plaintext fun d =>
    (C.gd d).map fun g => scalarMulSub ivk g

/-- `Domain::parse_note_plaintext_without_memo_ovk` (note_encryption.rs):
the sender validates the supplied `pk_d` by recomputing `g_d · esk` and
comparing its wire bytes with the claimed ephemeral key. -/
def parse_note_plaintext_without_memo_ovk {r : ℕ} (P : Params) (height : ℕ)
    (C : Collab r) (pk_d : SubgroupPoint r) (esk : Scalar r)
    (ephemeral_key : List ℕ) (plaintext : List ℕ) :
    Option (Note r × PaymentAddress r) :=
  sapling_parse_note_plaintext_without_memo P height C plaintext fun d =>
    match C.gd d with
    | none => none
    | some g =>
        if pointToBytes (scalarMulSub esk g).val = ephemeral_key then some pk_d
        else none

/-- Modelled from the spec: the `NoteEncryption` context of the
note-encryption crate — ephemeral secret, derived ephemeral public key, and
the data to encrypt. -/
structure NoteEncryptionCtx (r : ℕ) where
  esk : Scalar r
  epk : Point r
  note : Note r
  recipient : PaymentAddress r
  memo : List ℕ
  ovk : Option (List ℕ)

/-- Modelled from the spec: `NoteEncryption::new_with_esk` — fixes the
ephemeral secret and computes `epk = g_d · esk`. -/
def new_with_esk {r : ℕ} (esk : Scalar r) (ovk : Option (List ℕ)) (note : Note r)
    (recipient : PaymentAddress r) (memo : List ℕ) : NoteEncryptionCtx r :=
  ⟨esk, ka_derive_public note esk, note, recipient, memo, ovk⟩

/-- `sapling_note_encryption` (note_encryption.rs): build the encryption
context, deriving the ephemeral secret from the note (or sampling it, for
pre-upgrade notes, from the randomness source `rand`). -/
def sapling_note_encryption {r : ℕ} (ovk : Option (List ℕ)) (note : Note r)
    (recipient : PaymentAddress r) (memo : List ℕ) (rand : Scalar r) :
    NoteEncryptionCtx r :=
  new_with_esk (note.generate_or_derive_esk rand) ovk note recipient memo

/-- Modelled from the spec: `NoteEncryption::encrypt_note_plaintext` — agree,
derive the symmetric key, AEAD-encrypt the note plaintext. -/
def NoteEncryptionCtx.encrypt_note_plaintext {r : ℕ} (c : NoteEncryptionCtx r) :
    Ciphertext :=
  aeadEncrypt (kdf_sapling (ka_agree_enc c.esk c.note.pk_d) (epk_bytes c.epk))
    (note_plaintext_bytes c.note c.recipient c.memo)

/-- Modelled from the spec: `NoteEncryption::encrypt_outgoing_plaintext` —
with an outgoing viewing key, derive the outgoing cipher key and encrypt
`(pk_d, esk)` under it; without one, emit a ciphertext-shaped value under a
fresh random key carrying random bytes (no recoverable secret). -/
def NoteEncryptionCtx.encrypt_outgoing_plaintext {r : ℕ} (c : NoteEncryptionCtx r)
    (cv : Point r) (cmu_bytes : List ℕ) (randKey : HashOut) (randPt : List ℕ) :
    Ciphertext :=
  match c.ovk with
  | some ovk =>
      aeadEncrypt (prf_ock ovk cv cmu_bytes (epk_bytes c.epk))
        (outgoing_plaintext_bytes c.note c.esk)
  | none => aeadEncrypt randKey randPt

/-- `OutputDescription` (transaction module): the chain data a decryption
path consumes — value commitment, claimed commitment bytes, claimed
ephemeral-key bytes, and the two ciphertexts. -/
structure OutputDescription (r : ℕ) where
  cv : Point r
  cmu : List ℕ
  ephemeral_key : List ℕ
  enc_ciphertext : Ciphertext
  out_ciphertext : Ciphertext
deriving DecidableEq

/-- Modelled from the spec: assembling an `OutputDescription` from an
encryption context, as the sender does (cv and cmu computed alongside). -/
def encryptToOutput {r : ℕ} (c : NoteEncryptionCtx r) (cv : Point r)
    (randKey : HashOut) (randPt : List ℕ) : OutputDescription r :=
  ⟨cv, c.note.cmu, epk_bytes c.epk, c.encrypt_note_plaintext,
    c.encrypt_outgoing_plaintext cv c.note.cmu randKey randPt⟩

/-- `CompactOutputDescription` (transaction module): the memo-truncated form
used for lightweight scanning. -/
structure CompactOutputDescription (r : ℕ) where
  cmu : List ℕ
  ephemeral_key : List ℕ
  enc_ciphertext : Ciphertext
deriving DecidableEq

/-- Modelled from the spec: `CompactOutputDescription::from` — truncate the
main ciphertext to the compact region. -/
def compactOf {r : ℕ} (o : OutputDescription r) : CompactOutputDescription r :=
  ⟨o.cmu, o.ephemeral_key, ⟨o.enc_ciphertext.key, o.enc_ciphertext.ptx.take COMPACT_NOTE_SIZE⟩⟩

/-- Modelled from the spec: the note-validity check shared by all decryption
paths — the recomputed commitment must match the claimed one, and for notes
whose ephemeral secret is derivable, the recomputed ephemeral key must match
the claimed wire bytes. -/
def check_note_validity {r : ℕ} (n : Note r) (ephemeral_key : List ℕ)
    (cmu_bytes : List ℕ) : Bool :=
  if n.cmu = cmu_bytes then
    match n.derive_esk with
    | some derived => decide (epk_bytes (ka_derive_public n derived) = ephemeral_key)
    | none => true
  else false

/-- `try_sapling_note_decryption` (note_encryption.rs), with the generic
pipeline of the note-encryption crate modelled from the spec: parse the
ephemeral key, agree and derive the symmetric key, AEAD-decrypt (the
fixed-size ciphertext always carries a full-length plaintext), decode the
plaintext with ivk-based `pk_d` recomputation, then check note validity and
recover the memo. -/
def try_sapling_note_decryption {r : ℕ} (P : Params) (height : ℕ) (C : Collab r)
    (ivk : Scalar r) (output : OutputDescription r) :
    Option (Note r × PaymentAddress r × List ℕ) :=
  (epk r output.ephemeral_key).bind fun epk0 =>
  (aeadDecrypt (kdf_sapling (ka_agree_dec ivk epk0) output.ephemeral_key)
    output.enc_ciphertext).bind fun pt =>
  if COMPACT_NOTE_SIZE ≤ pt.length then
    (parse_note_plaintext_without_memo_ivk P height C ivk pt).bind fun np =>
    if check_note_validity np.1 output.ephemeral_key output.cmu then
      some (np.1, np.2, extract_memo pt)
    else none
  else none

/-- `try_sapling_compact_note_decryption` (note_encryption.rs), pipeline
modelled from the spec: identical through plaintext decode, on the
memo-truncated ciphertext, skipping memo recovery. -/
def try_sapling_compact_note_decryption {r : ℕ} (P : Params) (height : ℕ)
    (C : Collab r) (ivk : Scalar r) (output : CompactOutputDescription r) :
    Option (Note r × PaymentAddress r) :=
  (epk r output.ephemeral_key).bind fun epk0 =>
  (aeadDecrypt (kdf_sapling (ka_agree_dec ivk epk0) output.ephemeral_key)
    output.enc_ciphertext).bind fun pt =>
  if pt.length = COMPACT_NOTE_SIZE then
    (parse_note_plaintext_without_memo_ivk P height C ivk pt).bind fun np =>
    if check_note_validity np.1 output.ephemeral_key output.cmu then
      some (np.1, np.2)
    else none
  else none

/-- `try_sapling_output_recovery_with_ock` (note_encryption.rs), pipeline
modelled from the spec: AEAD-decrypt the outgoing ciphertext under the given
outgoing cipher key, extract `(pk_d, esk)`, agree and derive the symmetric
key, AEAD-decrypt the main ciphertext, decode the plaintext with esk-based
`pk_d` verification, then check note validity and recover the memo. -/
def try_sapling_output_recovery_with_ock {r : ℕ} (P : Params) (height : ℕ)
    (C : Collab r) (ock : HashOut) (output : OutputDescription r) :
    Option (Note r × PaymentAddress r × List ℕ) :=
  (aeadDecrypt ock output.out_ciphertext).bind fun op =>
  if op.length = OUT_PLAINTEXT_SIZE then
    (extract_pk_d r op).bind fun pk_d =>
    (extract_esk r op).bind fun esk =>
    (aeadDecrypt (kdf_sapling (ka_agree_enc esk pk_d) output.ephemeral_key)
      output.enc_ciphertext).bind fun pt =>
    if COMPACT_NOTE_SIZE ≤ pt.length then
      (parse_note_plaintext_without_memo_ovk P height C pk_d esk
        output.ephemeral_key pt).bind fun np =>
      if check_note_validity np.1 output.ephemeral_key output.cmu then
        some (np.1, np.2, extract_memo pt)
      else none
    else none
  else none

/-- `try_sapling_output_recovery` (note_encryption.rs): derive the outgoing
cipher key from the outgoing viewing key and the output's public data, then
recover exactly as with a precomputed key. -/
def try_sapling_output_recovery {r : ℕ} (P : Params) (height : ℕ) (C : Collab r)
    (ovk : List ℕ) (output : OutputDescription r) :
    Option (Note r × PaymentAddress r × List ℕ) :=
  try_sapling_output_recovery_with_ock P height C
    (prf_ock ovk output.cv output.cmu output.ephemeral_key) output

/-- Modelled from the spec: `group::Curve::batch_normalize` of the jubjub
collaborator — its contract requires the two slices to have the same length
(it panics otherwise, modelled as `none`); affine conversion preserves the
canonical byte encoding, so points are carried through unchanged. -/
def batch_normalize {r : ℕ} (p : List (Point r)) (qlen : ℕ) :
    Option (List (Point r)) :=
  if p.length = qlen then some p else none

/-- The per-item pairing loop of `batch_kdf` (note_encryption.rs): each
present shared secret consumes the next normalized point and is hashed with
its ephemeral-key bytes; an absent secret yields no symmetric key. -/
def batchPairKdf {r : ℕ} :
    List (Option (SubgroupPoint r)) → List (Point r) → List (List ℕ) →
      List (Option HashOut)
  | [], _, _ => []
  | _ :: _, _, [] => []
  | none :: ss, aff, _ :: eks => none :: batchPairKdf ss aff eks
  | some _ :: ss, [], _ :: eks => none :: batchPairKdf ss [] eks
  | some _ :: ss, a :: aff, ek :: eks =>
      some ⟨KDF_SAPLING_PERSONALIZATION, pointToBytes a ++ ek⟩ ::
        batchPairKdf ss aff eks

/-- `BatchDomain::batch_kdf` (note_encryption.rs): unzip the items, filter
the present shared secrets, batch-normalize them into an affine buffer sized
by the **total** number of items (`shared_secrets.len()`), then hash each
present secret with its ephemeral-key bytes.  The `none` result models the
panic of `batch_normalize` when the filtered list is shorter than the
buffer. -/
def batch_kdf {r : ℕ} (items : List (Option (SubgroupPoint r) × List ℕ)) :
    Option (List (Option HashOut)) :=
  let shared_secrets := items.map Prod.fst
  let ephemeral_keys := items.map Prod.snd
  let secrets := shared_secrets.filterMap (fun s => s.map Subtype.val)
  match batch_normalize secrets shared_secrets.length with
  | none => none
  | some secrets_affine => some (batchPairKdf shared_secrets secrets_affine ephemeral_keys)

/-- `BatchDomain::batch_epk` (note_encryption.rs):
`AffinePoint::batch_from_bytes` is modelled per its contract (item-by-item
equal to the single-item decoder); each item yields the optional parsed
point paired with the original wire bytes. -/
def batch_epk (r : ℕ) (ephemeral_keys : List (List ℕ)) :
    List (Option (Point r) × List ℕ) :=
  (ephemeral_keys.map (extendedFromBytes r)).zip ephemeral_keys

/-- `ViewingKey` (sapling.rs): `ak` and the nullifier-deriving key `nk`,
both subgroup points. -/
structure ViewingKey (r : ℕ) where
  ak : SubgroupPoint r
  nk : SubgroupPoint r
deriving DecidableEq

/-- The error cases of `ViewingKey::read` (sapling.rs): short input, `ak`
not a valid non-identity subgroup point, `nk` not a subgroup point. -/
inductive ReadError
  | eof
  | akInvalid
  | nkInvalid
deriving DecidableEq

/-- `ViewingKey::read` (sapling.rs): read 32 bytes for `ak` (subgroup
decode, then reject the identity) and 32 bytes for `nk` (subgroup decode
only); the `ak` failure is reported first. -/
def ViewingKey.read (r : ℕ) (bs : List ℕ) : Except ReadError (ViewingKey r) :=
  if bs.length < 32 then .error .eof
  else if bs.length < 64 then .error .eof
  else
    match (subgroupFromBytes r (bs.take 32)).bind
        (fun p => if p.val = 0 then none else some p) with
    | none => .error .akInvalid
    | some ak =>
      match subgroupFromBytes r ((bs.drop 32).take 32) with
      | none => .error .nkInvalid
      | some nk => .ok ⟨ak, nk⟩

/-- Modelled from the spec: the blake2s `CRH^ivk` hash collaborator — an
opaque deterministic function of `ak ‖ nk` bytes with a 32-byte output. -/
def crhIvk (akBytes nkBytes : List ℕ) : List ℕ :=
  natToLEBytes 32 (leBytesToNat (akBytes ++ nkBytes))

/-- `ViewingKey::ivk` (sapling.rs): hash `ak ‖ nk`, clear the top 5 bits of
the final byte (`h[31] &= 0b0000_0111`), and decode the result as a scalar;
the source unwraps the decode, modelled here as the `Option` it wraps. -/
def ViewingKey.ivk {r : ℕ} (vk : ViewingKey r) : Option (Scalar r) :=
  let h := crhIvk (pointToBytes vk.ak.val) (pointToBytes vk.nk.val)
  scalarFromBytes r (h.set 31 (h.getD 31 0 % 8))

/-- Well-formedness of an rseed: post-upgrade randomness is exactly 32
bytes (enforced by the `[u8; 32]` type in the source). -/
def rseedWf {r : ℕ} : Rseed r → Prop
  | .BeforeZip212 _ => True
  | .AfterZip212 bs => bs.length = 32

instance {r : ℕ} : ∀ s : Rseed r, Decidable (rseedWf s)
  | .BeforeZip212 _ => .isTrue trivial
  | .AfterZip212 bs => (inferInstance : Decidable (bs.length = 32))

/-! Concrete data for evaluating the development at small size: subgroup
order `7`, full group `ZMod 56`, generator `8` of the prime-order subgroup. -/

/-- A generator of the prime-order subgroup in the small concrete group. -/
def cG : SubgroupPoint 7 := ⟨(8 : ZMod 56), by decide⟩

/-- The diversified transmission key `cG · 3` in the small concrete group. -/
def cPkd : SubgroupPoint 7 := ⟨(24 : ZMod 56), by decide⟩

/-- A concrete 11-byte diversifier. -/
def cDiv : List ℕ := List.replicate 11 10

/-- A concrete 32-byte asset-type identifier. -/
def cAsset : List ℕ := List.replicate 32 7

/-- Concrete collaborators: the diversifier hash maps `cDiv` to `cG` and
everything else to no point; asset identifiers are valid iff 32 bytes. -/
def cCollab : Collab 7 :=
  ⟨fun d => if d = cDiv then some cG else none, fun idb => idb.length == 32⟩

/-- Concrete consensus parameters: activation height 100, grace period 10. -/
def cParams : Params := ⟨some 100, 10⟩

/-- A concrete payment address. -/
def cAddr : PaymentAddress 7 := ⟨cPkd, cDiv⟩

/-- A concrete pre-upgrade note addressed to `cAddr`. -/
def cNoteB : Note 7 := ⟨cAsset, 100, .BeforeZip212 2, cG, cPkd⟩

/-- A concrete post-upgrade note addressed to `cAddr`. -/
def cNoteA : Note 7 := ⟨cAsset, 100, .AfterZip212 (List.replicate 32 5), cG, cPkd⟩

/-- A concrete outgoing viewing key (32 zero bytes). -/
def cOvk : List ℕ := List.replicate 32 0

/-- A concrete output produced by encrypting `cNoteB` with `cOvk`. -/
def cOutB : OutputDescription 7 :=
  encryptToOutput (sapling_note_encryption (some cOvk) cNoteB cAddr [] 2)
    (0 : ZMod 56) ⟨[3], [4]⟩ []

/-- A concrete output produced by encrypting `cNoteA` with `cOvk`. -/
def cOutA : OutputDescription 7 :=
  encryptToOutput (sapling_note_encryption (some cOvk) cNoteA cAddr [] 2)
    (0 : ZMod 56) ⟨[3], [4]⟩ []

/-- A concrete 64-byte `ViewingKey` encoding whose `nk` half encodes the
group identity. -/
def cVkBytes : List ℕ := natToLEBytes 32 8 ++ natToLEBytes 32 0

/-- A concrete viewing key at a subgroup order large enough for the real
curve's bit-clearing argument (`2 ^ 251 ≤ r`). -/
def cVkBig : ViewingKey (2 ^ 251) := ⟨⟨0, smul_zero _⟩, ⟨0, smul_zero _⟩⟩

/-! From here on: theorems. -/

theorem length_natToLEBytes (k v : ℕ) : (natToLEBytes k v).length = k := by
  induction k generalizing v with
  | zero => rfl
  | succ k ih => simp [natToLEBytes, ih]

theorem isBytes_natToLEBytes (k v : ℕ) : isBytes (natToLEBytes k v) := by
  induction k generalizing v with
  | zero => intro b hb; simp [natToLEBytes] at hb
  | succ k ih =>
    intro b hb
    simp only [natToLEBytes, List.mem_cons] at hb
    rcases hb with h | h
    · subst h; exact Nat.mod_lt _ (by norm_num)
    · exact ih _ _ h

theorem leBytesToNat_natToLEBytes {k v : ℕ} (h : v < 256 ^ k) :
    leBytesToNat (natToLEBytes k v) = v := by
  induction k generalizing v with
  | zero =>
    simp only [pow_zero, Nat.lt_one_iff] at h
    subst h; rfl
  | succ k ih =>
    have hv : v / 256 < 256 ^ k := by
      apply Nat.div_lt_of_lt_mul
      have hp : (256 : ℕ) ^ (k + 1) = 256 * 256 ^ k := by ring
      rw [← hp]
      exact h
    simp only [natToLEBytes, leBytesToNat, ih hv]
    omega

theorem scalarFromBytes_scalarToBytes {r : ℕ} (hr : 0 < r) (hr32 : r ≤ 256 ^ 32)
    (s : Scalar r) : scalarFromBytes r (scalarToBytes s) = some s := by
  haveI : NeZero r := ⟨hr.ne'⟩
  have hvlt : s.val < r := ZMod.val_lt s
  have hv32 : s.val < 256 ^ 32 := lt_of_lt_of_le hvlt hr32
  have hle : leBytesToNat (scalarToBytes s) = s.val := by
    simp only [scalarToBytes]
    exact leBytesToNat_natToLEBytes hv32
  have hcond : (scalarToBytes s).length = 32 ∧ isBytes (scalarToBytes s) ∧
      leBytesToNat (scalarToBytes s) < r := by
    refine ⟨length_natToLEBytes _ _, isBytes_natToLEBytes _ _, ?_⟩
    rw [hle]; exact hvlt
  unfold scalarFromBytes
  rw [if_pos hcond]
  refine congrArg some ?_
  rw [hle]
  exact ZMod.natCast_rightInverse s

theorem extendedFromBytes_pointToBytes {r : ℕ} (hr : 0 < r) (h32 : 8 * r ≤ 256 ^ 32)
    (p : Point r) : extendedFromBytes r (pointToBytes p) = some p := by
  haveI : NeZero (8 * r) := ⟨by omega⟩
  have hvlt : p.val < 8 * r := ZMod.val_lt p
  have hv32 : p.val < 256 ^ 32 := lt_of_lt_of_le hvlt h32
  have hle : leBytesToNat (pointToBytes p) = p.val := by
    simp only [pointToBytes]
    exact leBytesToNat_natToLEBytes hv32
  have hcond : (pointToBytes p).length = 32 ∧ isBytes (pointToBytes p) ∧
      leBytesToNat (pointToBytes p) < 8 * r := by
    refine ⟨length_natToLEBytes _ _, isBytes_natToLEBytes _ _, ?_⟩
    rw [hle]; exact hvlt
  unfold extendedFromBytes
  rw [if_pos hcond]
  refine congrArg some ?_
  rw [hle]
  exact ZMod.natCast_rightInverse p

theorem subgroupFromBytes_pointToBytes {r : ℕ} (hr : 0 < r) (h32 : 8 * r ≤ 256 ^ 32)
    (g : SubgroupPoint r) : subgroupFromBytes r (pointToBytes g.val) = some g := by
  unfold subgroupFromBytes
  rw [extendedFromBytes_pointToBytes hr h32]
  simp [g.property]

theorem sapling_ka_agree_val {r : ℕ} (esk : Scalar r) (p : Point r) :
    (sapling_ka_agree esk p).val = (8 * esk.val) • p := by
  show (8 : ℕ) • (esk.val • p) = (8 * esk.val) • p
  rw [smul_smul]

theorem ka_symmetry {r : ℕ} (esk ivk : Scalar r) (g : SubgroupPoint r) :
    ka_agree_enc esk (scalarMulSub ivk g) = ka_agree_dec ivk (scalarMulSub esk g).val := by
  apply Subtype.ext
  unfold ka_agree_enc ka_agree_dec
  rw [sapling_ka_agree_val, sapling_ka_agree_val]
  show (8 * esk.val) • (ivk.val • g.val) = (8 * ivk.val) • (esk.val • g.val)
  rw [smul_smul, smul_smul]
  congr 1
  ring

theorem rseedBytes_length {r : ℕ} (s : Rseed r) (h : rseedWf s) :
    (rseedBytes s).length = 32 := by
  cases s with
  | BeforeZip212 rcm => exact length_natToLEBytes _ _
  | AfterZip212 bs => exact h

theorem slices5 (d v a rb memo : List ℕ) (hd : d.length = 11) (hv : v.length = 8)
    (ha : a.length = 32) (hrb : rb.length = 32) :
    (d ++ v ++ a ++ rb ++ memo).take 11 = d
    ∧ ((d ++ v ++ a ++ rb ++ memo).drop 11).take 8 = v
    ∧ ((d ++ v ++ a ++ rb ++ memo).drop 19).take 32 = a
    ∧ ((d ++ v ++ a ++ rb ++ memo).drop 51).take 32 = rb
    ∧ (d ++ v ++ a ++ rb ++ memo).drop 83 = memo
    ∧ (d ++ v ++ a ++ rb ++ memo).length = 83 + memo.length := by
  have h1 : d ++ v ++ a ++ rb ++ memo = d ++ (v ++ a ++ rb ++ memo) := by
    simp [List.append_assoc]
  have h2 : v ++ a ++ rb ++ memo = v ++ (a ++ rb ++ memo) := by
    simp [List.append_assoc]
  have h3 : d ++ v ++ a ++ rb ++ memo = (d ++ v) ++ (a ++ rb ++ memo) := by
    simp [List.append_assoc]
  have h4 : a ++ rb ++ memo = a ++ (rb ++ memo) := by
    simp [List.append_assoc]
  have h5 : d ++ v ++ a ++ rb ++ memo = (d ++ v ++ a) ++ (rb ++ memo) := by
    simp [List.append_assoc]
  refine ⟨?_, ?_, ?_, ?_, ?_, ?_⟩
  · rw [h1, List.take_left' hd]
  · rw [h1, List.drop_left' hd, h2, List.take_left' hv]
  · rw [h3, List.drop_left' (by simp [hd, hv]), h4, List.take_left' ha]
  · rw [h5, List.drop_left' (by simp [hd, hv, ha]), List.take_left' hrb]
  · exact List.drop_left' (by simp [hd, hv, ha, hrb])
  · simp [hd, hv, ha, hrb]
    omega

theorem plaintext_slices {r : ℕ} (n : Note r) (recipient : PaymentAddress r)
    (memo : List ℕ) (hd : recipient.diversifier.length = 11)
    (has : n.asset_type.length = 32) (hrsl : (rseedBytes n.rseed).length = 32) :
    (note_plaintext_bytes n recipient memo).headD 0 = leadByte n.rseed
    ∧ ((note_plaintext_bytes n recipient memo).drop 1).take 11 = recipient.diversifier
    ∧ ((note_plaintext_bytes n recipient memo).drop 12).take 8 = natToLEBytes 8 n.value
    ∧ ((note_plaintext_bytes n recipient memo).drop 20).take 32 = n.asset_type
    ∧ ((note_plaintext_bytes n recipient memo).drop 52).take 32 = rseedBytes n.rseed
    ∧ (note_plaintext_bytes n recipient memo).drop 84 = memo
    ∧ (note_plaintext_bytes n recipient memo).length = 84 + memo.length := by
  have hv : (natToLEBytes 8 n.value).length = 8 := length_natToLEBytes _ _
  obtain ⟨s1, s2, s3, s4, s5, s6⟩ :=
    slices5 recipient.diversifier (natToLEBytes 8 n.value) n.asset_type
      (rseedBytes n.rseed) memo hd hv has hrsl
  have e1 : (note_plaintext_bytes n recipient memo).drop 1
      = recipient.diversifier ++ natToLEBytes 8 n.value ++ n.asset_type ++
          rseedBytes n.rseed ++ memo := rfl
  have e12 : (note_plaintext_bytes n recipient memo).drop 12
      = (recipient.diversifier ++ natToLEBytes 8 n.value ++ n.asset_type ++
          rseedBytes n.rseed ++ memo).drop 11 := rfl
  have e20 : (note_plaintext_bytes n recipient memo).drop 20
      = (recipient.diversifier ++ natToLEBytes 8 n.value ++ n.asset_type ++
          rseedBytes n.rseed ++ memo).drop 19 := rfl
  have e52 : (note_plaintext_bytes n recipient memo).drop 52
      = (recipient.diversifier ++ natToLEBytes 8 n.value ++ n.asset_type ++
          rseedBytes n.rseed ++ memo).drop 51 := rfl
  have e84 : (note_plaintext_bytes n recipient memo).drop 84
      = (recipient.diversifier ++ natToLEBytes 8 n.value ++ n.asset_type ++
          rseedBytes n.rseed ++ memo).drop 83 := rfl
  have el : (note_plaintext_bytes n recipient memo).length
      = (recipient.diversifier ++ natToLEBytes 8 n.value ++ n.asset_type ++
          rseedBytes n.rseed ++ memo).length + 1 := by
    simp [note_plaintext_bytes]
  refine ⟨rfl, ?_, ?_, ?_, ?_, ?_, ?_⟩
  · rw [e1, s1]
  · rw [e12, s2]
  · rw [e20, s3]
  · rw [e52, s4]
  · rw [e84, s5]
  · rw [el, s6]
    omega

theorem amount_roundtrip {r : ℕ} (n : Note r) (hval64 : n.value < 2 ^ 64)
    (hvalmax : n.value ≤ MAX_MONEY) :
    amount_from_u64_le_bytes (natToLEBytes 8 n.value) = some n.value := by
  have h8 : n.value < 256 ^ 8 := by
    have : (256 : ℕ) ^ 8 = 2 ^ 64 := by norm_num
    omega
  unfold amount_from_u64_le_bytes
  rw [leBytesToNat_natToLEBytes h8, if_pos hvalmax]

theorem parse_core_roundtrip {r : ℕ} (hr : 0 < r) (hr32 : 8 * r ≤ 256 ^ 32)
    (P : Params) (height : ℕ) (C : Collab r) (n : Note r)
    (recipient : PaymentAddress r) (memo : List ℕ)
    (gvpk : List ℕ → Option (SubgroupPoint r))
    (hd : recipient.diversifier.length = 11)
    (has : n.asset_type.length = 32)
    (hassetv : C.assetValid n.asset_type = true)
    (hval64 : n.value < 2 ^ 64)
    (hvalmax : n.value ≤ MAX_MONEY)
    (hrs : rseedWf n.rseed)
    (hgd : C.gd recipient.diversifier = some n.g_d)
    (hpknz : n.pk_d.val ≠ 0)
    (hto : recipient.pk_d = n.pk_d)
    (hgv : gvpk recipient.diversifier = some n.pk_d)
    (hver : plaintext_version_is_valid P height (leadByte n.rseed) = true) :
    sapling_parse_note_plaintext_without_memo P height C
      (note_plaintext_bytes n recipient memo) gvpk = some (n, recipient) := by
  obtain ⟨hh, h1, h2, h3, h4, h5, h6⟩ :=
    plaintext_slices n recipient memo hd has (rseedBytes_length _ hrs)
  have hrle : r ≤ 256 ^ 32 := le_trans (by omega) hr32
  have hasset2 : assetType_from_identifier C n.asset_type = some n.asset_type := by
    unfold assetType_from_identifier
    rw [if_pos hassetv]
  have hrseed2 : (if leadByte n.rseed = 1 then
        (scalarFromBytes r (rseedBytes n.rseed)).map Rseed.BeforeZip212
      else some (Rseed.AfterZip212 (rseedBytes n.rseed))) = some n.rseed := by
    cases hc : n.rseed with
    | BeforeZip212 rcm =>
      simp only [leadByte, rseedBytes, if_pos]
      rw [scalarFromBytes_scalarToBytes hr hrle]
      rfl
    | AfterZip212 bs =>
      simp only [leadByte, rseedBytes]
      norm_num
  have hfp : PaymentAddress.from_parts recipient.diversifier n.pk_d
      = some ⟨n.pk_d, recipient.diversifier⟩ := by
    unfold PaymentAddress.from_parts
    rw [if_neg hpknz]
  have hfinal : (⟨n.pk_d, recipient.diversifier⟩ : PaymentAddress r) = recipient := by
    cases recipient with
    | mk rpk rdiv =>
      simp only [PaymentAddress.mk.injEq, and_true]
      exact hto.symm
  have hnote2 : PaymentAddress.create_note C recipient n.asset_type n.value n.rseed
      = some n := by
    unfold PaymentAddress.create_note
    rw [hgd]
    show some ⟨n.asset_type, n.value, n.rseed, n.g_d, recipient.pk_d⟩ = some n
    rw [hto]
  unfold sapling_parse_note_plaintext_without_memo
  rw [hh, if_pos hver, h2, h3, h4, h1, amount_roundtrip n hval64 hvalmax]
  simp only [Option.some_bind, hasset2, hrseed2, hgv, hfp, hfinal, hnote2,
    Option.map_some']

theorem aeadDecrypt_aeadEncrypt (k : HashOut) (pt : List ℕ) :
    aeadDecrypt k (aeadEncrypt k pt) = some pt := by
  unfold aeadDecrypt aeadEncrypt
  simp

theorem parse_ivk_roundtrip {r : ℕ} (hr : 0 < r) (hr32 : 8 * r ≤ 256 ^ 32)
    (P : Params) (height : ℕ) (C : Collab r) (n : Note r)
    (recipient : PaymentAddress r) (memo : List ℕ) (ivk : Scalar r)
    (hd : recipient.diversifier.length = 11)
    (has : n.asset_type.length = 32)
    (hassetv : C.assetValid n.asset_type = true)
    (hval64 : n.value < 2 ^ 64)
    (hvalmax : n.value ≤ MAX_MONEY)
    (hrs : rseedWf n.rseed)
    (hgd : C.gd recipient.diversifier = some n.g_d)
    (hpknz : n.pk_d.val ≠ 0)
    (hto : recipient.pk_d = n.pk_d)
    (hpk : n.pk_d = scalarMulSub ivk n.g_d)
    (hver : plaintext_version_is_valid P height (leadByte n.rseed) = true) :
    parse_note_plaintext_without_memo_ivk P height C ivk
      (note_plaintext_bytes n recipient memo) = some (n, recipient) := by
  unfold parse_note_plaintext_without_memo_ivk
  apply parse_core_roundtrip hr hr32 P height C n recipient memo _ hd has hassetv
    hval64 hvalmax hrs hgd hpknz hto _ hver
  rw [hgd, Option.map_some']
  exact congrArg some hpk.symm

theorem parse_ovk_roundtrip {r : ℕ} (hr : 0 < r) (hr32 : 8 * r ≤ 256 ^ 32)
    (P : Params) (height : ℕ) (C : Collab r) (n : Note r)
    (recipient : PaymentAddress r) (memo : List ℕ) (esk : Scalar r)
    (hd : recipient.diversifier.length = 11)
    (has : n.asset_type.length = 32)
    (hassetv : C.assetValid n.asset_type = true)
    (hval64 : n.value < 2 ^ 64)
    (hvalmax : n.value ≤ MAX_MONEY)
    (hrs : rseedWf n.rseed)
    (hgd : C.gd recipient.diversifier = some n.g_d)
    (hpknz : n.pk_d.val ≠ 0)
    (hto : recipient.pk_d = n.pk_d)
    (hver : plaintext_version_is_valid P height (leadByte n.rseed) = true) :
    parse_note_plaintext_without_memo_ovk P height C n.pk_d esk
      (pointToBytes (scalarMulSub esk n.g_d).val)
      (note_plaintext_bytes n recipient memo) = some (n, recipient) := by
  unfold parse_note_plaintext_without_memo_ovk
  apply parse_core_roundtrip hr hr32 P height C n recipient memo _ hd has hassetv
    hval64 hvalmax hrs hgd hpknz hto _ hver
  rw [hgd]
  simp

/-- Claim C1: for every valid input (optional ovk, note, recipient address,
memo) and every height at which the note's leading version byte is
acceptable, encrypting with `sapling_note_encryption` and trial-decrypting
the resulting output with `try_sapling_note_decryption` under the matching
incoming viewing key returns exactly the original note, address and memo. -/
theorem C1_encrypt_decrypt_roundtrip {r : ℕ} (hr : 0 < r) (hr32 : 8 * r ≤ 256 ^ 32)
    (P : Params) (height : ℕ) (C : Collab r) (ovk : Option (List ℕ))
    (note : Note r) (recipient : PaymentAddress r) (memo : List ℕ)
    (ivk rand : Scalar r) (cv : Point r) (rk : HashOut) (rp : List ℕ)
    (hd : recipient.diversifier.length = 11)
    (has : note.asset_type.length = 32)
    (hassetv : C.assetValid note.asset_type = true)
    (hval64 : note.value < 2 ^ 64)
    (hvalmax : note.value ≤ MAX_MONEY)
    (hrs : rseedWf note.rseed)
    (hgd : C.gd recipient.diversifier = some note.g_d)
    (hpknz : note.pk_d.val ≠ 0)
    (hto : recipient.pk_d = note.pk_d)
    (hpk : note.pk_d = scalarMulSub ivk note.g_d)
    (hver : plaintext_version_is_valid P height (leadByte note.rseed) = true) :
    try_sapling_note_decryption P height C ivk
      (encryptToOutput (sapling_note_encryption ovk note recipient memo rand) cv rk rp)
      = some (note, recipient, memo) := by
  obtain ⟨hh, h1, h2, h3, h4, h5, h6⟩ :=
    plaintext_slices note recipient memo hd has (rseedBytes_length _ hrs)
  have hepk : epk r (pointToBytes (ka_derive_public note
        (note.generate_or_derive_esk rand)))
      = some (ka_derive_public note (note.generate_or_derive_esk rand)) :=
    extendedFromBytes_pointToBytes hr hr32 _
  have hkey : ka_agree_enc (note.generate_or_derive_esk rand) note.pk_d
      = ka_agree_dec ivk (ka_derive_public note (note.generate_or_derive_esk rand)) := by
    rw [hpk]
    exact ka_symmetry _ _ _
  have hcheck : check_note_validity note
      (pointToBytes (ka_derive_public note (note.generate_or_derive_esk rand)))
      note.cmu = true := by
    unfold check_note_validity
    rw [if_pos rfl]
    cases hc : note.rseed with
    | BeforeZip212 rcm =>
      simp [Note.derive_esk, hc]
    | AfterZip212 bs =>
      simp only [Note.derive_esk, hc]
      have he : note.generate_or_derive_esk rand = eskFromRseed r bs := by
        unfold Note.generate_or_derive_esk Note.derive_esk
        rw [hc]
        rfl
      rw [← he]
      simp [epk_bytes]
  have hlen : COMPACT_NOTE_SIZE ≤ (note_plaintext_bytes note recipient memo).length := by
    rw [h6]
    unfold COMPACT_NOTE_SIZE
    omega
  have hparse := parse_ivk_roundtrip hr hr32 P height C note recipient memo ivk
    hd has hassetv hval64 hvalmax hrs hgd hpknz hto hpk hver
  have ho_ek : (encryptToOutput (sapling_note_encryption ovk note recipient memo rand)
        cv rk rp).ephemeral_key
      = pointToBytes (ka_derive_public note (note.generate_or_derive_esk rand)) := rfl
  have ho_enc : (encryptToOutput (sapling_note_encryption ovk note recipient memo rand)
        cv rk rp).enc_ciphertext
      = aeadEncrypt (kdf_sapling
            (ka_agree_enc (note.generate_or_derive_esk rand) note.pk_d)
            (pointToBytes (ka_derive_public note (note.generate_or_derive_esk rand))))
          (note_plaintext_bytes note recipient memo) := rfl
  have ho_cmu : (encryptToOutput (sapling_note_encryption ovk note recipient memo rand)
        cv rk rp).cmu = note.cmu := rfl
  unfold try_sapling_note_decryption
  rw [ho_ek, ho_enc, ho_cmu, hepk]
  simp only [Option.some_bind]
  rw [hkey, aeadDecrypt_aeadEncrypt]
  simp only [Option.some_bind]
  rw [if_pos hlen, hparse]
  simp only [Option.some_bind]
  rw [if_pos hcheck]
  unfold extract_memo COMPACT_NOTE_SIZE
  rw [h5]

/-- Claim C2: an output produced by encrypting with an outgoing viewing key
`ovk` is recovered identically by `try_sapling_output_recovery(ovk)` and by
`try_sapling_output_recovery_with_ock` under the key
`prf_ock(ovk, cv, cmu bytes, ephemeral key bytes)`: both return the original
note, address and memo (hence results equal to each other). -/
theorem C2_ovk_ock_recovery_roundtrip {r : ℕ} (hr : 0 < r) (hr32 : 8 * r ≤ 256 ^ 32)
    (P : Params) (height : ℕ) (C : Collab r) (ovkb : List ℕ)
    (note : Note r) (recipient : PaymentAddress r) (memo : List ℕ)
    (rand : Scalar r) (cv : Point r) (rk : HashOut) (rp : List ℕ)
    (hd : recipient.diversifier.length = 11)
    (has : note.asset_type.length = 32)
    (hassetv : C.assetValid note.asset_type = true)
    (hval64 : note.value < 2 ^ 64)
    (hvalmax : note.value ≤ MAX_MONEY)
    (hrs : rseedWf note.rseed)
    (hgd : C.gd recipient.diversifier = some note.g_d)
    (hpknz : note.pk_d.val ≠ 0)
    (hto : recipient.pk_d = note.pk_d)
    (hver : plaintext_version_is_valid P height (leadByte note.rseed) = true) :
    try_sapling_output_recovery P height C ovkb
      (encryptToOutput (sapling_note_encryption (some ovkb) note recipient memo rand)
        cv rk rp)
      = some (note, recipient, memo)
    ∧ try_sapling_output_recovery_with_ock P height C
        (prf_ock ovkb
          (encryptToOutput (sapling_note_encryption (some ovkb) note recipient memo rand)
            cv rk rp).cv
          (encryptToOutput (sapling_note_encryption (some ovkb) note recipient memo rand)
            cv rk rp).cmu
          (encryptToOutput (sapling_note_encryption (some ovkb) note recipient memo rand)
            cv rk rp).ephemeral_key)
        (encryptToOutput (sapling_note_encryption (some ovkb) note recipient memo rand)
          cv rk rp)
      = some (note, recipient, memo) := by
  obtain ⟨hh, h1, h2, h3, h4, h5, h6⟩ :=
    plaintext_slices note recipient memo hd has (rseedBytes_length _ hrs)
  have hrle : r ≤ 256 ^ 32 := le_trans (by omega) hr32
  have ho_ek : (encryptToOutput (sapling_note_encryption (some ovkb) note recipient memo rand)
        cv rk rp).ephemeral_key
      = pointToBytes (ka_derive_public note (note.generate_or_derive_esk rand)) := rfl
  have ho_enc : (encryptToOutput (sapling_note_encryption (some ovkb) note recipient memo rand)
        cv rk rp).enc_ciphertext
      = aeadEncrypt (kdf_sapling
            (ka_agree_enc (note.generate_or_derive_esk rand) note.pk_d)
            (pointToBytes (ka_derive_public note (note.generate_or_derive_esk rand))))
          (note_plaintext_bytes note recipient memo) := rfl
  have ho_cmu : (encryptToOutput (sapling_note_encryption (some ovkb) note recipient memo rand)
        cv rk rp).cmu = note.cmu := rfl
  have ho_out : (encryptToOutput (sapling_note_encryption (some ovkb) note recipient memo rand)
        cv rk rp).out_ciphertext
      = aeadEncrypt (prf_ock ovkb cv note.cmu
            (pointToBytes (ka_derive_public note (note.generate_or_derive_esk rand))))
          (outgoing_plaintext_bytes note (note.generate_or_derive_esk rand)) := rfl
  have hol : (outgoing_plaintext_bytes note (note.generate_or_derive_esk rand)).length
      = OUT_PLAINTEXT_SIZE := by
    unfold outgoing_plaintext_bytes OUT_PLAINTEXT_SIZE pointToBytes scalarToBytes
    rw [List.length_append, length_natToLEBytes, length_natToLEBytes]
  have hpkd : extract_pk_d r (outgoing_plaintext_bytes note (note.generate_or_derive_esk rand))
      = some note.pk_d := by
    unfold extract_pk_d outgoing_plaintext_bytes
    rw [List.take_left'
      (show (pointToBytes note.pk_d.val).length = 32 from length_natToLEBytes _ _)]
    exact subgroupFromBytes_pointToBytes hr hr32 note.pk_d
  have hesk : extract_esk r (outgoing_plaintext_bytes note (note.generate_or_derive_esk rand))
      = some (note.generate_or_derive_esk rand) := by
    unfold extract_esk outgoing_plaintext_bytes
    rw [List.drop_left'
      (show (pointToBytes note.pk_d.val).length = 32 from length_natToLEBytes _ _)]
    rw [List.take_of_length_le (le_of_eq
      (show (scalarToBytes (note.generate_or_derive_esk rand)).length = 32 from
        length_natToLEBytes _ _))]
    exact scalarFromBytes_scalarToBytes hr hrle _
  have hlen : COMPACT_NOTE_SIZE ≤ (note_plaintext_bytes note recipient memo).length := by
    rw [h6]
    unfold COMPACT_NOTE_SIZE
    omega
  have hparse2 : parse_note_plaintext_without_memo_ovk P height C note.pk_d
      (note.generate_or_derive_esk rand)
      (pointToBytes (ka_derive_public note (note.generate_or_derive_esk rand)))
      (note_plaintext_bytes note recipient memo) = some (note, recipient) :=
    parse_ovk_roundtrip hr hr32 P height C note recipient memo
      (note.generate_or_derive_esk rand) hd has hassetv hval64 hvalmax hrs hgd
      hpknz hto hver
  have hcheck : check_note_validity note
      (pointToBytes (ka_derive_public note (note.generate_or_derive_esk rand)))
      note.cmu = true := by
    unfold check_note_validity
    rw [if_pos rfl]
    cases hc : note.rseed with
    | BeforeZip212 rcm =>
      simp [Note.derive_esk, hc]
    | AfterZip212 bs =>
      simp only [Note.derive_esk, hc]
      have he : note.generate_or_derive_esk rand = eskFromRseed r bs := by
        unfold Note.generate_or_derive_esk Note.derive_esk
        rw [hc]
        rfl
      rw [← he]
      simp [epk_bytes]
  have hmain : try_sapling_output_recovery_with_ock P height C
      (prf_ock ovkb cv note.cmu
        (pointToBytes (ka_derive_public note (note.generate_or_derive_esk rand))))
      (encryptToOutput (sapling_note_encryption (some ovkb) note recipient memo rand)
        cv rk rp)
      = some (note, recipient, memo) := by
    unfold try_sapling_output_recovery_with_ock
    rw [ho_out, ho_ek, ho_enc, ho_cmu, aeadDecrypt_aeadEncrypt]
    simp only [Option.some_bind]
    rw [if_pos hol, hpkd]
    simp only [Option.some_bind]
    rw [hesk]
    simp only [Option.some_bind]
    rw [aeadDecrypt_aeadEncrypt]
    simp only [Option.some_bind]
    rw [if_pos hlen, hparse2]
    simp only [Option.some_bind]
    rw [if_pos hcheck]
    unfold extract_memo COMPACT_NOTE_SIZE
    rw [h5]
  exact ⟨hmain, hmain⟩

/-- Claim C3: the version gate is the three-interval step function of height
described by the spec — strictly below the Canopy activation height only
byte `0x01` is accepted; from activation through the end of the grace period
(exclusive) bytes `0x01` and `0x02` are accepted; from the end of the grace
period on only byte `0x02` is accepted. -/
theorem C3_version_gate_intervals (P : Params) (H : ℕ)
    (hact : P.canopyActivation = some H) (height leadbyte : ℕ) :
    plaintext_version_is_valid P height leadbyte = true ↔
      ((height < H ∧ leadbyte = 1)
       ∨ (H ≤ height ∧ height < H + P.zip212GracePeriod
            ∧ (leadbyte = 1 ∨ leadbyte = 2))
       ∨ (H + P.zip212GracePeriod ≤ height ∧ leadbyte = 2)) := by
  unfold plaintext_version_is_valid Params.is_nu_active
  rw [hact]
  split_ifs <;> simp_all <;> omega

theorem parse_some_version {r : ℕ} (P : Params) (height : ℕ) (C : Collab r)
    (plaintext : List ℕ) (gvpk : List ℕ → Option (SubgroupPoint r))
    (x : Note r × PaymentAddress r)
    (h : sapling_parse_note_plaintext_without_memo P height C plaintext gvpk = some x) :
    plaintext_version_is_valid P height (plaintext.headD 0) = true := by
  by_cases hv : plaintext_version_is_valid P height (plaintext.headD 0) = true
  · exact hv
  · unfold sapling_parse_note_plaintext_without_memo at h
    rw [if_neg hv] at h
    exact absurd h (by simp)

theorem parse_ivk_some_version {r : ℕ} (P : Params) (height : ℕ) (C : Collab r)
    (ivk : Scalar r) (plaintext : List ℕ) (x : Note r × PaymentAddress r)
    (h : parse_note_plaintext_without_memo_ivk P height C ivk plaintext = some x) :
    plaintext_version_is_valid P height (plaintext.headD 0) = true :=
  parse_some_version P height C plaintext _ x h

theorem parse_ovk_some_version {r : ℕ} (P : Params) (height : ℕ) (C : Collab r)
    (pk_d : SubgroupPoint r) (esk : Scalar r) (ek : List ℕ) (plaintext : List ℕ)
    (x : Note r × PaymentAddress r)
    (h : parse_note_plaintext_without_memo_ovk P height C pk_d esk ek plaintext = some x) :
    plaintext_version_is_valid P height (plaintext.headD 0) = true :=
  parse_some_version P height C plaintext _ x h

/-- Claim C5: the plaintext decoder is (extensionally) the pipeline that
validates, in the spec's order, (a) the version gate, (b) the diversifier
mapping to a validated transmission key, (c) the bounded value, (d) the
asset-type identifier, and (e) the version-dependent rseed (byte `0x01`
requires a canonical scalar, byte `0x02` takes the bytes as opaque
randomness); and it returns `none`, with no partial result, whenever any of
these validations fails. -/
theorem C5_parse_validation_order {r : ℕ} (P : Params) (height : ℕ) (C : Collab r)
    (plaintext : List ℕ) (gvpk : List ℕ → Option (SubgroupPoint r))
    (_hlen : COMPACT_NOTE_SIZE ≤ plaintext.length) :
    sapling_parse_note_plaintext_without_memo P height C plaintext gvpk
      = parse_note_plaintext_spec_order P height C plaintext gvpk
    ∧ (plaintext_version_is_valid P height (plaintext.headD 0) = false →
        sapling_parse_note_plaintext_without_memo P height C plaintext gvpk = none)
    ∧ (gvpk ((plaintext.drop 1).take 11) = none →
        sapling_parse_note_plaintext_without_memo P height C plaintext gvpk = none)
    ∧ (amount_from_u64_le_bytes ((plaintext.drop 12).take 8) = none →
        sapling_parse_note_plaintext_without_memo P height C plaintext gvpk = none)
    ∧ (assetType_from_identifier C ((plaintext.drop 20).take 32) = none →
        sapling_parse_note_plaintext_without_memo P height C plaintext gvpk = none)
    ∧ (plaintext.headD 0 = 1 →
        scalarFromBytes r ((plaintext.drop 52).take 32) = none →
        sapling_parse_note_plaintext_without_memo P height C plaintext gvpk = none) := by
  refine ⟨?_, ?_, ?_, ?_, ?_, ?_⟩
  · unfold sapling_parse_note_plaintext_without_memo parse_note_plaintext_spec_order
    cases hv : plaintext_version_is_valid P height (plaintext.headD 0)
    · simp [hv]
    · cases ha : amount_from_u64_le_bytes ((plaintext.drop 12).take 8) <;>
        cases hg : gvpk ((plaintext.drop 1).take 11) <;>
          cases hs : assetType_from_identifier C ((plaintext.drop 20).take 32) <;>
            cases hrs0 : (if plaintext.headD 0 = 1 then
                (scalarFromBytes r ((plaintext.drop 52).take 32)).map Rseed.BeforeZip212
              else
                some (Rseed.AfterZip212 ((plaintext.drop 52).take 32))) <;>
              simp [hv, ha, hg, hs, hrs0]
  · intro hv
    unfold sapling_parse_note_plaintext_without_memo
    rw [hv]
    simp
  · intro hg
    unfold sapling_parse_note_plaintext_without_memo
    rw [hg]
    simp
  · intro ha
    unfold sapling_parse_note_plaintext_without_memo
    rw [ha]
    simp
  · intro hs
    unfold sapling_parse_note_plaintext_without_memo
    rw [hs]
    simp
  · intro h1 hsc
    unfold sapling_parse_note_plaintext_without_memo
    rw [h1, hsc]
    simp

/-- Claim C7: `sapling_ka_agree(scalar, point)` equals `[8·scalar]·point`
(scalar multiplication then cofactor clearing), its result is annihilated by
`r` (lies in the prime-order subgroup) for every input point, and for
matching parameters `pk_d = g_d·ivk`, `epk = g_d·esk` the two agreement
directions `ka_agree_enc(esk, pk_d)` and `ka_agree_dec(ivk, epk)` produce
the identical shared secret. -/
theorem C7_ka_agree_spec {r : ℕ} (esk : Scalar r) (p : Point r) (ivk : Scalar r)
    (g : SubgroupPoint r) :
    (sapling_ka_agree esk p).val = (8 * esk.val) • p
    ∧ r • (sapling_ka_agree esk p).val = 0
    ∧ ka_agree_enc esk (scalarMulSub ivk g) = ka_agree_dec ivk (scalarMulSub esk g).val :=
  ⟨sapling_ka_agree_val esk p, (sapling_ka_agree esk p).property, ka_symmetry esk ivk g⟩

/-- Claim C6: every public decryption entry point returns an `Option`, and a
result is produced only when every validation succeeded — equivalently, by
contraposition on an `Option`-valued total function, each failure category
(malformed wire bytes, AEAD authentication failure, version mismatch for the
height, semantic commitment/ephemeral-key mismatch) leads to `none` and not
to any distinguishable error; OVK recovery is literally OCK recovery at the
derived key. -/
theorem C6_failure_collapse {r : ℕ} (P : Params) (height : ℕ) (C : Collab r)
    (ivk : Scalar r) (ovkb : List ℕ) (ock : HashOut) (output : OutputDescription r)
    (coutput : CompactOutputDescription r) :
    (∀ res : Note r × PaymentAddress r × List ℕ,
        try_sapling_note_decryption P height C ivk output = some res →
        ∃ epk0 pt, epk r output.ephemeral_key = some epk0
          ∧ aeadDecrypt (kdf_sapling (ka_agree_dec ivk epk0) output.ephemeral_key)
              output.enc_ciphertext = some pt
          ∧ plaintext_version_is_valid P height (pt.headD 0) = true
          ∧ check_note_validity res.1 output.ephemeral_key output.cmu = true)
    ∧ (∀ res : Note r × PaymentAddress r,
        try_sapling_compact_note_decryption P height C ivk coutput = some res →
        ∃ epk0 pt, epk r coutput.ephemeral_key = some epk0
          ∧ aeadDecrypt (kdf_sapling (ka_agree_dec ivk epk0) coutput.ephemeral_key)
              coutput.enc_ciphertext = some pt
          ∧ plaintext_version_is_valid P height (pt.headD 0) = true
          ∧ check_note_validity res.1 coutput.ephemeral_key coutput.cmu = true)
    ∧ (∀ res : Note r × PaymentAddress r × List ℕ,
        try_sapling_output_recovery_with_ock P height C ock output = some res →
        ∃ op pk_d esk pt, aeadDecrypt ock output.out_ciphertext = some op
          ∧ extract_pk_d r op = some pk_d
          ∧ extract_esk r op = some esk
          ∧ aeadDecrypt (kdf_sapling (ka_agree_enc esk pk_d) output.ephemeral_key)
              output.enc_ciphertext = some pt
          ∧ plaintext_version_is_valid P height (pt.headD 0) = true
          ∧ check_note_validity res.1 output.ephemeral_key output.cmu = true)
    ∧ try_sapling_output_recovery P height C ovkb output
        = try_sapling_output_recovery_with_ock P height C
            (prf_ock ovkb output.cv output.cmu output.ephemeral_key) output := by
  refine ⟨?_, ?_, ?_, rfl⟩
  · intro res h
    unfold try_sapling_note_decryption at h
    cases hepk : epk r output.ephemeral_key with
    | none => rw [hepk] at h; simp at h
    | some epk0 =>
      rw [hepk] at h
      simp only [Option.some_bind] at h
      cases hdec : aeadDecrypt (kdf_sapling (ka_agree_dec ivk epk0) output.ephemeral_key)
          output.enc_ciphertext with
      | none => rw [hdec] at h; simp at h
      | some pt =>
        rw [hdec] at h
        simp only [Option.some_bind] at h
        by_cases hl : COMPACT_NOTE_SIZE ≤ pt.length
        · rw [if_pos hl] at h
          cases hp : parse_note_plaintext_without_memo_ivk P height C ivk pt with
          | none => rw [hp] at h; simp at h
          | some np =>
            rw [hp] at h
            simp only [Option.some_bind] at h
            by_cases hc : check_note_validity np.1 output.ephemeral_key output.cmu = true
            · rw [if_pos hc] at h
              obtain hres := Option.some.inj h
              refine ⟨epk0, pt, rfl, hdec, parse_ivk_some_version P height C ivk pt np hp, ?_⟩
              rw [← hres]
              exact hc
            · rw [if_neg hc] at h; simp at h
        · rw [if_neg hl] at h; simp at h
  · intro res h
    unfold try_sapling_compact_note_decryption at h
    cases hepk : epk r coutput.ephemeral_key with
    | none => rw [hepk] at h; simp at h
    | some epk0 =>
      rw [hepk] at h
      simp only [Option.some_bind] at h
      cases hdec : aeadDecrypt (kdf_sapling (ka_agree_dec ivk epk0) coutput.ephemeral_key)
          coutput.enc_ciphertext with
      | none => rw [hdec] at h; simp at h
      | some pt =>
        rw [hdec] at h
        simp only [Option.some_bind] at h
        by_cases hl : pt.length = COMPACT_NOTE_SIZE
        · rw [if_pos hl] at h
          cases hp : parse_note_plaintext_without_memo_ivk P height C ivk pt with
          | none => rw [hp] at h; simp at h
          | some np =>
            rw [hp] at h
            simp only [Option.some_bind] at h
            by_cases hc : check_note_validity np.1 coutput.ephemeral_key coutput.cmu = true
            · rw [if_pos hc] at h
              obtain hres := Option.some.inj h
              refine ⟨epk0, pt, rfl, hdec, parse_ivk_some_version P height C ivk pt np hp, ?_⟩
              rw [← hres]
              exact hc
            · rw [if_neg hc] at h; simp at h
        · rw [if_neg hl] at h; simp at h
  · intro res h
    unfold try_sapling_output_recovery_with_ock at h
    cases hop : aeadDecrypt ock output.out_ciphertext with
    | none => rw [hop] at h; simp at h
    | some op =>
      rw [hop] at h
      simp only [Option.some_bind] at h
      by_cases holen : op.length = OUT_PLAINTEXT_SIZE
      · rw [if_pos holen] at h
        cases hpk : extract_pk_d r op with
        | none => rw [hpk] at h; simp at h
        | some pk_d =>
          rw [hpk] at h
          simp only [Option.some_bind] at h
          cases hes : extract_esk r op with
          | none => rw [hes] at h; simp at h
          | some esk =>
            rw [hes] at h
            simp only [Option.some_bind] at h
            cases hdec : aeadDecrypt (kdf_sapling (ka_agree_enc esk pk_d)
                output.ephemeral_key) output.enc_ciphertext with
            | none => rw [hdec] at h; simp at h
            | some pt =>
              rw [hdec] at h
              simp only [Option.some_bind] at h
              by_cases hl : COMPACT_NOTE_SIZE ≤ pt.length
              · rw [if_pos hl] at h
                cases hp : parse_note_plaintext_without_memo_ovk P height C pk_d esk
                    output.ephemeral_key pt with
                | none => rw [hp] at h; simp at h
                | some np =>
                  rw [hp] at h
                  simp only [Option.some_bind] at h
                  by_cases hc : check_note_validity np.1 output.ephemeral_key
                      output.cmu = true
                  · rw [if_pos hc] at h
                    obtain hres := Option.some.inj h
                    refine ⟨op, pk_d, esk, pt, rfl, hpk, hes, hdec,
                      parse_ovk_some_version P height C pk_d esk
                        output.ephemeral_key pt np hp, ?_⟩
                    rw [← hres]
                    exact hc
                  · rw [if_neg hc] at h; simp at h
              · rw [if_neg hl] at h; simp at h
      · rw [if_neg holen] at h; simp at h

/-- Counterexample to claim C8 as stated: `ViewingKey::read` accepts a
64-byte encoding whose `nk` half is the group identity, because the source
checks `nk` only for subgroup membership, never against the identity. -/
theorem C8_counterexample :
    ∃ vk : ViewingKey 7, ViewingKey.read 7 cVkBytes = Except.ok vk ∧ vk.nk.val = 0 := by
  refine ⟨⟨⟨8, by decide⟩, ⟨0, by decide⟩⟩, rfl, rfl⟩

/-- Claim C8 (amended): parsing a 64-byte encoding checks `ak` to be a
valid, non-identity subgroup point and `nk` to be a valid subgroup point
(the identity is accepted for `nk`); it errors exactly when `ak` fails to
decode or is the identity, or when `nk` fails to decode, reporting the `ak`
failure first. -/
theorem C8_read_checks {r : ℕ} (bs : List ℕ) (hlen : bs.length = 64) :
    (∀ vk : ViewingKey r, ViewingKey.read r bs = .ok vk →
        subgroupFromBytes r (bs.take 32) = some vk.ak ∧ vk.ak.val ≠ 0
          ∧ subgroupFromBytes r ((bs.drop 32).take 32) = some vk.nk)
    ∧ (subgroupFromBytes r (bs.take 32) = none →
        ViewingKey.read r bs = .error .akInvalid)
    ∧ (∀ ak, subgroupFromBytes r (bs.take 32) = some ak → ak.val = 0 →
        ViewingKey.read r bs = .error .akInvalid)
    ∧ (∀ ak, subgroupFromBytes r (bs.take 32) = some ak → ak.val ≠ 0 →
        subgroupFromBytes r ((bs.drop 32).take 32) = none →
        ViewingKey.read r bs = .error .nkInvalid)
    ∧ (∀ ak nk, subgroupFromBytes r (bs.take 32) = some ak → ak.val ≠ 0 →
        subgroupFromBytes r ((bs.drop 32).take 32) = some nk →
        ViewingKey.read r bs = .ok ⟨ak, nk⟩) := by
  have g1 : ¬bs.length < 32 := by omega
  have g2 : ¬bs.length < 64 := by omega
  refine ⟨?_, ?_, ?_, ?_, ?_⟩
  · intro vk hvk
    unfold ViewingKey.read at hvk
    rw [if_neg g1, if_neg g2] at hvk
    cases hak : subgroupFromBytes r (bs.take 32) with
    | none => rw [hak] at hvk; simp at hvk
    | some ak =>
      rw [hak] at hvk
      simp only [Option.some_bind] at hvk
      by_cases hz : ak.val = 0
      · rw [if_pos hz] at hvk; simp at hvk
      · rw [if_neg hz] at hvk
        cases hnk : subgroupFromBytes r ((bs.drop 32).take 32) with
        | none => rw [hnk] at hvk; simp at hvk
        | some nk =>
          rw [hnk] at hvk
          simp only [Except.ok.injEq] at hvk
          rw [← hvk]
          exact ⟨rfl, hz, rfl⟩
  · intro hak
    unfold ViewingKey.read
    rw [if_neg g1, if_neg g2, hak]
    simp
  · intro ak hak hz
    unfold ViewingKey.read
    rw [if_neg g1, if_neg g2, hak]
    simp only [Option.some_bind]
    rw [if_pos hz]
  · intro ak hak hz hnk
    unfold ViewingKey.read
    rw [if_neg g1, if_neg g2, hak]
    simp only [Option.some_bind]
    rw [if_neg hz]
    simp only [hnk]
  · intro ak nk hak hz hnk
    unfold ViewingKey.read
    rw [if_neg g1, if_neg g2, hak]
    simp only [Option.some_bind]
    rw [if_neg hz]
    simp only [hnk]

/-- Counterexample to claim C9 as stated: the memo-less (compact) region of
the note plaintext occupies 84 bytes here (1 lead + 11 diversifier + 8 value
+ 32 asset type + 32 rseed), not the claimed 52. -/
theorem C9_counterexample :
    (note_plaintext_bytes cNoteB cAddr []).length = 84
    ∧ ¬(note_plaintext_bytes cNoteB cAddr []).length = 52 := by
  refine ⟨by decide, by decide⟩

/-- Claim C9 (amended): the note plaintext is laid out as
`[1 lead byte][11 diversifier][8 value LE][32 asset id][32 rseed][memo]`, so
the compact prefix — the memo-truncated plaintext — occupies exactly 84
bytes; and the outgoing plaintext is `[32 pk_d][32 esk]`, 64 bytes. -/
theorem C9_plaintext_layout {r : ℕ} (n : Note r) (recipient : PaymentAddress r)
    (memo : List ℕ) (esk : Scalar r)
    (hd : recipient.diversifier.length = 11)
    (has : n.asset_type.length = 32)
    (hrs : rseedWf n.rseed) :
    note_plaintext_bytes n recipient memo
      = leadByte n.rseed :: (recipient.diversifier ++ natToLEBytes 8 n.value ++
          n.asset_type ++ rseedBytes n.rseed ++ memo)
    ∧ (note_plaintext_bytes n recipient memo).length = COMPACT_NOTE_SIZE + memo.length
    ∧ (note_plaintext_bytes n recipient memo).take COMPACT_NOTE_SIZE
        = note_plaintext_bytes n recipient []
    ∧ COMPACT_NOTE_SIZE = 84
    ∧ outgoing_plaintext_bytes n esk = pointToBytes n.pk_d.val ++ scalarToBytes esk
    ∧ (outgoing_plaintext_bytes n esk).length = OUT_PLAINTEXT_SIZE
    ∧ OUT_PLAINTEXT_SIZE = 64 := by
  have hv : (natToLEBytes 8 n.value).length = 8 := length_natToLEBytes _ _
  have hrsl : (rseedBytes n.rseed).length = 32 := rseedBytes_length _ hrs
  obtain ⟨hh, h1, h2, h3, h4, h5, h6⟩ := plaintext_slices n recipient memo hd has hrsl
  refine ⟨rfl, ?_, ?_, rfl, rfl, ?_, rfl⟩
  · rw [h6]
    rfl
  · show leadByte n.rseed :: ((recipient.diversifier ++ natToLEBytes 8 n.value ++
        n.asset_type ++ rseedBytes n.rseed ++ memo).take 83)
      = note_plaintext_bytes n recipient []
    rw [List.take_left' (by simp [hd, hv, has, hrsl])]
    unfold note_plaintext_bytes
    rw [List.append_nil]
  · unfold outgoing_plaintext_bytes OUT_PLAINTEXT_SIZE pointToBytes scalarToBytes
    rw [List.length_append, length_natToLEBytes, length_natToLEBytes]

theorem leBytesToNat_append (xs ys : List ℕ) :
    leBytesToNat (xs ++ ys) = leBytesToNat xs + 256 ^ xs.length * leBytesToNat ys := by
  induction xs with
  | nil => simp [leBytesToNat]
  | cons b tl ih =>
    show b + 256 * leBytesToNat (tl ++ ys)
      = b + 256 * leBytesToNat tl + 256 ^ (b :: tl).length * leBytesToNat ys
    rw [ih, List.length_cons]
    ring

theorem leBytesToNat_lt (bs : List ℕ) (h : isBytes bs) :
    leBytesToNat bs < 256 ^ bs.length := by
  induction bs with
  | nil => simp [leBytesToNat]
  | cons b tl ih =>
    have hb : b < 256 := h b (List.mem_cons_self _ _)
    have htl : isBytes tl := fun x hx => h x (List.mem_cons_of_mem _ hx)
    have hlt := ih htl
    have hp : (256 : ℕ) ^ (b :: tl).length = 256 * 256 ^ tl.length := by
      rw [List.length_cons]
      ring
    simp only [leBytesToNat, hp]
    omega

/-- Claim C10: `ViewingKey::ivk` is total — for the real curve's subgroup
order (any `r` with `2 ^ 251 ≤ r`), hashing `ak ‖ nk` and clearing the top
5 bits of the last byte always produces a canonically decodable scalar, so
the source's `from_repr(...).unwrap()` can never panic. -/
theorem C10_ivk_total {r : ℕ} (hr : 2 ^ 251 ≤ r) (vk : ViewingKey r) :
    ∃ s, vk.ivk = some s := by
  unfold ViewingKey.ivk crhIvk
  set h0 := natToLEBytes 32
    (leBytesToNat (pointToBytes vk.ak.val ++ pointToBytes vk.nk.val)) with hdef
  have hlen : h0.length = 32 := length_natToLEBytes _ _
  have hbytes : isBytes h0 := isBytes_natToLEBytes _ _
  have hsplit : h0.set 31 (h0.getD 31 0 % 8)
      = h0.take 31 ++ (h0.getD 31 0 % 8) :: h0.drop 32 :=
    List.set_eq_take_cons_drop _ (by omega)
  have hdrop : h0.drop 32 = [] := List.drop_eq_nil_of_le (by omega)
  have htklen : (h0.take 31).length = 31 := by
    rw [List.length_take]
    omega
  have htkbytes : isBytes (h0.take 31) := fun b hb => hbytes b (List.mem_of_mem_take hb)
  have htklt : leBytesToNat (h0.take 31) < 256 ^ 31 := by
    have := leBytesToNat_lt (h0.take 31) htkbytes
    rwa [htklen] at this
  have hxlt : h0.getD 31 0 % 8 < 8 := Nat.mod_lt _ (by norm_num)
  have hval : leBytesToNat (h0.set 31 (h0.getD 31 0 % 8)) < 2 ^ 251 := by
    rw [hsplit, hdrop, leBytesToNat_append, htklen]
    have hsing : leBytesToNat [h0.getD 31 0 % 8] = h0.getD 31 0 % 8 := by
      simp [leBytesToNat]
    rw [hsing]
    have hpow : (8 : ℕ) * 256 ^ 31 = 2 ^ 251 := by norm_num
    omega
  have hslen : (h0.set 31 (h0.getD 31 0 % 8)).length = 32 := by
    rw [List.length_set]
    exact hlen
  have hsbytes : isBytes (h0.set 31 (h0.getD 31 0 % 8)) := by
    rw [hsplit, hdrop]
    intro b hb
    rcases List.mem_append.mp hb with hb1 | hb2
    · exact htkbytes b hb1
    · rcases List.mem_cons.mp hb2 with hb3 | hb4
      · rw [hb3]
        exact lt_of_lt_of_le hxlt (by norm_num)
      · exact absurd hb4 (List.not_mem_nil b)
  unfold scalarFromBytes
  rw [if_pos ⟨hslen, hsbytes, lt_of_lt_of_le hval hr⟩]
  exact ⟨_, rfl⟩

/-- Claim C4 (code bug): `batch_kdf` sizes the affine buffer by the total
number of items but batch-normalizes only the present shared secrets, so any
absent shared secret trips the jubjub length assertion (a panic, modelled as
`none`) instead of propagating as a per-item `none`; with every secret
present it does agree item-by-item with `kdf_sapling`, and `batch_epk`
agrees item-by-item with the single-item `epk` parser. -/
theorem C4_batch_kdf_sentinel_bug :
    batch_kdf (r := 7) [(none, [0])] = none
    ∧ batch_kdf (r := 7) [(some cG, [0]), (some cPkd, [1])]
        = some [some (kdf_sapling cG [0]), some (kdf_sapling cPkd [1])]
    ∧ batch_epk 7 [[0], List.replicate 32 9]
        = [(extendedFromBytes 7 [0], [0]),
           (extendedFromBytes 7 (List.replicate 32 9), List.replicate 32 9)] := by
  refine ⟨by decide, by decide, by decide⟩

theorem C1_witness :
    try_sapling_note_decryption cParams 100 cCollab 3 cOutB
      = some (cNoteB, cAddr, []) :=
  C1_encrypt_decrypt_roundtrip (by decide) (by decide) cParams 100 cCollab
    (some cOvk) cNoteB cAddr [] 3 2 (0 : Point 7) ⟨[3], [4]⟩ []
    (by decide) (by decide) (by decide) (by decide) (by decide) (by decide)
    (by decide) (by decide) (by decide) (by decide) (by decide)

theorem C2_witness :
    try_sapling_output_recovery cParams 100 cCollab cOvk cOutB
      = some (cNoteB, cAddr, []) :=
  (C2_ovk_ock_recovery_roundtrip (by decide) (by decide) cParams 100 cCollab
    cOvk cNoteB cAddr [] 2 (0 : Point 7) ⟨[3], [4]⟩ []
    (by decide) (by decide) (by decide) (by decide) (by decide) (by decide)
    (by decide) (by decide) (by decide) (by decide)).1

theorem C3_witness :
    plaintext_version_is_valid cParams 100 2 = true ↔
      ((100 < 100 ∧ 2 = 1)
       ∨ (100 ≤ 100 ∧ 100 < 100 + cParams.zip212GracePeriod ∧ (2 = 1 ∨ 2 = 2))
       ∨ (100 + cParams.zip212GracePeriod ≤ 100 ∧ 2 = 2)) :=
  C3_version_gate_intervals cParams 100 rfl 100 2

theorem C5_witness :
    sapling_parse_note_plaintext_without_memo cParams 100 cCollab
        (note_plaintext_bytes cNoteB cAddr [])
        (fun d => (cCollab.gd d).map fun g => scalarMulSub 3 g)
      = parse_note_plaintext_spec_order cParams 100 cCollab
        (note_plaintext_bytes cNoteB cAddr [])
        (fun d => (cCollab.gd d).map fun g => scalarMulSub 3 g) :=
  (C5_parse_validation_order cParams 100 cCollab
    (note_plaintext_bytes cNoteB cAddr [])
    (fun d => (cCollab.gd d).map fun g => scalarMulSub 3 g) (by decide)).1

theorem C6_witness :
    (∃ epk0 pt, epk 7 cOutB.ephemeral_key = some epk0
      ∧ aeadDecrypt (kdf_sapling (ka_agree_dec 3 epk0) cOutB.ephemeral_key)
          cOutB.enc_ciphertext = some pt
      ∧ plaintext_version_is_valid cParams 100 (pt.headD 0) = true
      ∧ check_note_validity (cNoteB, cAddr, ([] : List ℕ)).1 cOutB.ephemeral_key
          cOutB.cmu = true)
    ∧ (∃ epk0 pt, epk 7 (compactOf cOutB).ephemeral_key = some epk0
      ∧ aeadDecrypt (kdf_sapling (ka_agree_dec 3 epk0) (compactOf cOutB).ephemeral_key)
          (compactOf cOutB).enc_ciphertext = some pt
      ∧ plaintext_version_is_valid cParams 100 (pt.headD 0) = true
      ∧ check_note_validity (cNoteB, cAddr).1 (compactOf cOutB).ephemeral_key
          (compactOf cOutB).cmu = true)
    ∧ (∃ op pk_d esk pt,
        aeadDecrypt (prf_ock cOvk cOutB.cv cOutB.cmu cOutB.ephemeral_key)
          cOutB.out_ciphertext = some op
      ∧ extract_pk_d 7 op = some pk_d
      ∧ extract_esk 7 op = some esk
      ∧ aeadDecrypt (kdf_sapling (ka_agree_enc esk pk_d) cOutB.ephemeral_key)
          cOutB.enc_ciphertext = some pt
      ∧ plaintext_version_is_valid cParams 100 (pt.headD 0) = true
      ∧ check_note_validity (cNoteB, cAddr, ([] : List ℕ)).1 cOutB.ephemeral_key
          cOutB.cmu = true) := by
  obtain ⟨hf, hc, ho, _⟩ := C6_failure_collapse cParams 100 cCollab 3 cOvk
    (prf_ock cOvk cOutB.cv cOutB.cmu cOutB.ephemeral_key) cOutB (compactOf cOutB)
  exact ⟨hf (cNoteB, cAddr, []) (by decide), hc (cNoteB, cAddr) (by decide),
    ho (cNoteB, cAddr, []) (by decide)⟩

theorem C8_witness :
    ViewingKey.read 7 cVkBytes = Except.ok ⟨⟨8, by decide⟩, ⟨0, by decide⟩⟩ :=
  (C8_read_checks cVkBytes (by decide)).2.2.2.2 ⟨8, by decide⟩ ⟨0, by decide⟩
    (by decide) (by decide) (by decide)

theorem C9_witness :
    (note_plaintext_bytes cNoteB cAddr [4]).take COMPACT_NOTE_SIZE
      = note_plaintext_bytes cNoteB cAddr [] :=
  (C9_plaintext_layout cNoteB cAddr [4] 2 (by decide) (by decide) (by decide)).2.2.1

theorem C10_witness : ∃ s, ViewingKey.ivk cVkBig = some s :=
  C10_ivk_total (le_refl _) cVkBig

end Masp
